import Mathlib

/-!
Shallow embedding of the `mixtura` package-manager front end
(`src/commands.py`, `src/manager.py`, and the provider adapters under
`src/modules/`) together with proofs about its reference-resolution,
aggregation, interactive-disambiguation and version-extraction logic.

Python dictionaries with string keys are modelled as insertion-ordered
association lists; Python string values that may be `None` are modelled as
`Option String`; a Python function that may raise an uncaught exception is
modelled as `Except String`-valued; external subprocess output consumed by a
function is passed in explicitly as a parameter.
-/

namespace Mixtura

/-- A package record, i.e. one of the string-keyed dicts produced by the
provider adapters (`search` results and `list_packages` entries).  A missing
key is `none`.  `ptype` models the `"type"` key set by the homebrew adapter. -/
structure Pkg where
  name : Option String := none
  id : Option String := none
  version : Option String := none
  description : Option String := none
  provider : Option String := none
  ptype : Option String := none
deriving DecidableEq, Repr

/-- The state of one provider adapter as seen through the abstract
`PackageManager` interface of `src/core.py`: its registered name, the live
result of `is_available()`, and the behaviour of `search(query)` and
`list_packages()`.  A call that raises is modelled by `none`. -/
structure ProviderM where
  name : String
  available : Bool
  search : String → Option (List Pkg)
  listPkgs : Option (List Pkg)

/-- `self.managers.get(name)`: look a provider up by name in the registry
(registration order, unique names). -/
def findMgr (mgrs : List ProviderM) (n : String) : Option ProviderM :=
  mgrs.find? (fun m => m.name == n)

/-- Membership test of a list for a needle list as a contiguous segment,
modelling Python `needle in hay` for strings. -/
def segIn [BEq α] : List α → List α → Bool
  | needle, [] => needle.isEmpty
  | needle, h :: t => needle.isPrefixOf (h :: t) || segIn needle t

/-- Python `needle in hay` on strings (substring test). -/
def strIn (needle hay : String) : Bool :=
  segIn needle.toList hay.toList

/-- Core of Python `s.split(sep)` for a one-character separator, on
character lists. -/
def splitChar (sep : Char) : List Char → List (List Char)
  | [] => [[]]
  | c :: cs =>
    if c = sep then [] :: splitChar sep cs
    else
      match splitChar sep cs with
      | [] => [[c]]
      | w :: ws => (c :: w) :: ws

/-- Python `s.split(sep)` for a one-character separator. -/
def pySplit (sep : Char) (s : String) : List String :=
  (splitChar sep s.toList).map String.mk

/-- Python `s.strip()` (whitespace on both ends). -/
def pyStrip (s : String) : String :=
  String.mk
    (((s.toList.dropWhile Char.isWhitespace).reverse.dropWhile
      Char.isWhitespace).reverse)

/-- Python `s.startswith(pre)`. -/
def strStarts (pre s : String) : Bool :=
  pre.toList.isPrefixOf s.toList

/-- Python `str.lower()` (ASCII). -/
def pyLower (s : String) : String :=
  String.mk (s.toList.map Char.toLower)

/-- Python truthiness-based `a or b` on two optional strings, as used by
`selected.get('id') or selected.get('name')`: the left value is kept only
when it is present and non-empty. -/
def pyOr (a b : Option String) : Option String :=
  match a with
  | some s => if s = "" then b else some s
  | none => b

/-- Split a character list at the first occurrence of `sep`; `none` when
`sep` does not occur.  Models `'#' in arg` plus `arg.split('#', 1)`. -/
def splitFirstChar (sep : Char) : List Char → Option (List Char × List Char)
  | [] => none
  | c :: cs =>
    if c = sep then some ([], cs)
    else
      match splitFirstChar sep cs with
      | some (a, b) => some (c :: a, b)
      | none => none

/-- String wrapper for `splitFirstChar`. -/
def splitHash (s : String) : Option (String × String) :=
  match splitFirstChar '#' s.toList with
  | some (a, b) => some (String.mk a, String.mk b)
  | none => none

/-- Split a character list at the first occurrence of the segment `needle`;
models Python `needle in line` plus `line.split(needle, 1)` for a non-empty
separator. -/
def splitFirstSeg (needle : List Char) : List Char → Option (List Char × List Char)
  | [] => none
  | c :: cs =>
    if needle.isPrefixOf (c :: cs) then some ([], (c :: cs).drop needle.length)
    else
      match splitFirstSeg needle cs with
      | some (a, b) => some (c :: a, b)
      | none => none

/-- String wrapper for `splitFirstSeg`. -/
def splitFirstStr (needle s : String) : Option (String × String) :=
  match splitFirstSeg needle.toList s.toList with
  | some (a, b) => some (String.mk a, String.mk b)
  | none => none

/-- `[p.strip() for p in s.split(',') if p.strip()]`: comma-split, trim each
item, drop empties. -/
def parseItems (s : String) : List String :=
  ((pySplit ',' s).map pyStrip).filter (fun p => !p.isEmpty)

/-- Decimal value of a digit list. -/
def digitsVal (ds : List Char) : Nat :=
  ds.foldl (fun n c => n * 10 + (c.toNat - '0'.toNat)) 0

/-- Python `int(s)` on a plain decimal numeral (optional sign, surrounding
whitespace); `none` models `ValueError`. -/
def pyInt? (s : String) : Option Int :=
  match (pyStrip s).toList with
  | [] => none
  | '+' :: ds => if !ds.isEmpty && ds.all Char.isDigit then some (digitsVal ds : Int) else none
  | '-' :: ds => if !ds.isEmpty && ds.all Char.isDigit then some (-(digitsVal ds : Int)) else none
  | ds => if ds.all Char.isDigit then some (digitsVal ds : Int) else none

/-- `d.get(k)` on an insertion-ordered dict of lists. -/
def dictGet {α : Type} : List (String × List α) → String → Option (List α)
  | [], _ => none
  | (k, v) :: rest, key => if k = key then some v else dictGet rest key

/-- `if k not in d: d[k] = []` followed by `d[k].extend(vs)` (or a single
`append`): extend the entry for `k` in place, creating it at the end when
absent. -/
def dictExtend {α : Type} : List (String × List α) → String → List α → List (String × List α)
  | [], k, vs => [(k, vs)]
  | (k', vs') :: rest, k, vs =>
    if k' = k then (k', vs' ++ vs) :: rest
    else (k', vs') :: dictExtend rest k vs

/-- One step of the aggregation loop of `ModuleManager.search_all`
(`src/manager.py` lines 106-114): skip unavailable providers, catch a raising
`search` with a warning, extend the accumulator only when results are
non-empty. -/
def searchAllStep (q : String) (acc : List Pkg) (m : ProviderM) : List Pkg :=
  if m.available then
    match m.search q with
    | some results => if results.isEmpty then acc else acc ++ results
    | none => acc
  else acc

/-- `ModuleManager.search_all(query)` (`src/manager.py` lines 100-115). -/
def searchAll (mgrs : List ProviderM) (q : String) : List Pkg :=
  mgrs.foldl (searchAllStep q) []

/-- One step of the installed-candidate collection loop of `cmd_remove`
(`src/commands.py` lines 130-145): skip unavailable providers, catch a raising
`list_packages` with a warning, keep entries whose name contains the query
case-insensitively, and stamp each kept entry with `pkg['provider'] =
mgr.name`. -/
def matchesStep (item : String) (acc : List Pkg) (m : ProviderM) : List Pkg :=
  if m.available then
    match m.listPkgs with
    | some installed =>
      acc ++ (installed.filter
        (fun p => strIn (pyLower item) (pyLower (p.name.getD "")))).map
        (fun p => { p with provider := some m.name })
    | none => acc
  else acc

/-- The full installed-candidate collection for one ambiguous remove item. -/
def matchesFor (mgrs : List ProviderM) (item : String) : List Pkg :=
  mgrs.foldl (matchesStep item) []

/-- The candidate filter of `cmd_remove` (`src/commands.py` lines 153-159):
drop candidates whose identifier is already scheduled for their provider.
`m['provider']` on a candidate without the key raises (`Except.error`). -/
def filterScheduled (sched : List (String × List (Option String))) :
    List Pkg → Except String (List Pkg)
  | [] => Except.ok []
  | m :: rest =>
    match m.provider with
    | none => Except.error "KeyError: provider"
    | some prov =>
      match filterScheduled sched rest with
      | Except.error e => Except.error e
      | Except.ok rest' =>
        if pyOr m.id m.name ∈ (dictGet sched prov).getD [] then Except.ok rest'
        else Except.ok (m :: rest')

/-- The scheduling of one selected candidate, shared verbatim by `cmd_add`
(lines 74-81) and `cmd_remove` (lines 191-196 and 205-212): read
`selected['provider']` (raises on a missing key), compute
`selected.get('id') or selected.get('name')`, append it to the provider's
group, then read `selected['name']` for the log line (raises on a missing
key). -/
def scheduleCandidate (sched : List (String × List (Option String)))
    (selected : Pkg) : Except String (List (String × List (Option String))) :=
  match selected.provider with
  | none => Except.error "KeyError: provider"
  | some prov =>
    let newSched := dictExtend sched prov [pyOr selected.id selected.name]
    match selected.name with
    | none => Except.error "KeyError: name"
    | some _ => Except.ok newSched

/-- State threaded through `cmd_add`: the `packages_to_install` dict plus
instrumentation — how many `search_all` calls and `input()` prompts happened,
and the cursor into the scripted sequence of prompt answers. -/
structure AddState where
  scheduled : List (String × List (Option String)) := []
  searchCalls : Nat := 0
  prompts : Nat := 0
  cursor : Nat := 0
deriving DecidableEq, Repr

/-- The add-side disambiguation of one ambiguous item (`src/commands.py`
lines 41-85).  `script` supplies the answer of each `input()` call. -/
def processAddItem (mgrs : List ProviderM) (script : Nat → String)
    (st : AddState) (item : String) : Except String AddState :=
  let st1 : AddState := { st with searchCalls := st.searchCalls + 1 }
  let results := searchAll mgrs item
  if results.isEmpty then Except.ok st1
  else
    let choice := script st1.cursor
    let st2 : AddState :=
      { st1 with prompts := st1.prompts + 1, cursor := st1.cursor + 1 }
    if pyLower choice = "s" ∨ pyLower choice = "q" then Except.ok st2
    else
      match pyInt? choice with
      | none => Except.ok st2
      | some n =>
        let idx := n - 1
        if h : 0 ≤ idx ∧ idx < (results.length : Int) then
          match scheduleCandidate st2.scheduled
              (results.get ⟨idx.toNat, by omega⟩) with
          | Except.ok s => Except.ok { st2 with scheduled := s }
          | Except.error e => Except.error e
        else Except.ok st2

/-- Processing of one CLI token by `cmd_add` (`src/commands.py` lines
26-85): an explicit `provider#items` token extends that provider's group
verbatim; an ambiguous token routes each comma-separated item through the
interactive disambiguation. -/
def processAddArg (mgrs : List ProviderM) (script : Nat → String)
    (st : AddState) (arg : String) : Except String AddState :=
  match splitHash arg with
  | some (provider, pkgsStr) =>
    Except.ok { st with
      scheduled := dictExtend st.scheduled provider ((parseItems pkgsStr).map some) }
  | none => (parseItems arg).foldlM (processAddItem mgrs script) st

/-- The token loop of `cmd_add` building `packages_to_install`. -/
def cmdAdd (mgrs : List ProviderM) (script : Nat → String)
    (args : List String) : Except String AddState :=
  args.foldlM (processAddArg mgrs script) {}

/-- The dispatch loop of `cmd_add` (`src/commands.py` lines 93-102): each
scheduled group whose provider is registered and available is passed to
`install`; an unknown or unavailable provider is reported and dropped.
Returns the list of performed `install` calls. -/
def dispatchStep (mgrs : List ProviderM)
    (acc : List (String × List (Option String)))
    (g : String × List (Option String)) :
    List (String × List (Option String)) :=
  match findMgr mgrs g.1 with
  | some m => if m.available then acc ++ [g] else acc
  | none => acc

/-- The full dispatch loop over the scheduled groups. -/
def dispatchInstall (mgrs : List ProviderM)
    (groups : List (String × List (Option String))) :
    List (String × List (Option String)) :=
  groups.foldl (dispatchStep mgrs) []

/-- State threaded through `cmd_remove`: the `packages_to_remove` dict plus
instrumentation — how many `list_packages` calls and `input()` prompts
happened, and the cursor into the scripted prompt answers. -/
structure RState where
  scheduled : List (String × List (Option String)) := []
  listCalls : Nat := 0
  prompts : Nat := 0
  cursor : Nat := 0
deriving DecidableEq, Repr

/-- The remove-side disambiguation of one ambiguous item (`src/commands.py`
lines 126-216): collect installed candidates, filter out already-scheduled
ones, then prompt; `s`/`q` skips, `a` asks for a bulk confirmation and
schedules every shown candidate when the confirmation lowercases to `y`, a
number selects one candidate, anything else is an invalid input. -/
def processRemoveItem (mgrs : List ProviderM) (script : Nat → String)
    (st : RState) (item : String) : Except String RState :=
  let st1 : RState :=
    { st with listCalls := st.listCalls + (mgrs.filter (·.available)).length }
  let found := matchesFor mgrs item
  if found.isEmpty then Except.ok st1
  else
    match filterScheduled st1.scheduled found with
    | Except.error e => Except.error e
    | Except.ok filtered =>
      if filtered.isEmpty then Except.ok st1
      else
        let choice := script st1.cursor
        let st2 : RState :=
          { st1 with prompts := st1.prompts + 1, cursor := st1.cursor + 1 }
        if pyLower choice = "s" ∨ pyLower choice = "q" then Except.ok st2
        else if pyLower choice = "a" then
          let confirm := script st2.cursor
          let st3 : RState :=
            { st2 with prompts := st2.prompts + 1, cursor := st2.cursor + 1 }
          if pyLower confirm = "y" then
            match filtered.foldlM scheduleCandidate st3.scheduled with
            | Except.ok s => Except.ok { st3 with scheduled := s }
            | Except.error e => Except.error e
          else Except.ok st3
        else
          match pyInt? choice with
          | none => Except.ok st2
          | some n =>
            let idx := n - 1
            if h : 0 ≤ idx ∧ idx < (filtered.length : Int) then
              match scheduleCandidate st2.scheduled
                  (filtered.get ⟨idx.toNat, by omega⟩) with
              | Except.ok s => Except.ok { st2 with scheduled := s }
              | Except.error e => Except.error e
            else Except.ok st2

/-- Processing of one CLI token by `cmd_remove` (`src/commands.py` lines
111-216): an explicit `provider#items` token extends that provider's group
verbatim; an ambiguous token routes each comma-separated item through the
remove-side disambiguation. -/
def processRemoveArg (mgrs : List ProviderM) (script : Nat → String)
    (st : RState) (arg : String) : Except String RState :=
  match splitHash arg with
  | some (provider, pkgsStr) =>
    Except.ok { st with
      scheduled := dictExtend st.scheduled provider ((parseItems pkgsStr).map some) }
  | none => (parseItems arg).foldlM (processRemoveItem mgrs script) st

/-- The token loop of `cmd_remove` building `packages_to_remove`. -/
def cmdRemove (mgrs : List ProviderM) (script : Nat → String)
    (args : List String) : Except String RState :=
  args.foldlM (processRemoveArg mgrs script) {}

/-- One step of the token loop of `cmd_upgrade` (`src/commands.py` lines
251-268): a token equal to a registered provider name goes to
`providers_full`; otherwise an explicit `prov#pkg` token appends the whole
suffix to that provider's group; otherwise the token is appended to the
hard-coded default group `'nixpkgs'`. -/
def upgStep (mgrs : List ProviderM)
    (acc : List String × List (String × List String)) (arg : String) :
    List String × List (String × List String) :=
  if (findMgr mgrs arg).isSome then (acc.1 ++ [arg], acc.2)
  else
    match splitHash arg with
    | some (prov, pkg) => (acc.1, dictExtend acc.2 prov [pkg])
    | none => (acc.1, dictExtend acc.2 "nixpkgs" [arg])

/-- The parsing phase of `cmd_upgrade`, producing `providers_full` and
`packages_map`. -/
def cmdUpgradeParse (mgrs : List ProviderM) (args : List String) :
    List String × List (String × List String) :=
  args.foldl (upgStep mgrs) ([], [])

/-- The full-provider execution loop of `cmd_upgrade` (`src/commands.py`
lines 271-275): each entry of `providers_full` that is registered and
available gets `upgrade(None)`.  Returns the performed upgrade calls; `none`
as the second component is Python's `None` argument ("upgrade all"). -/
def upgradeFullExec (mgrs : List ProviderM) (pf : List String) :
    List (String × Option (List String)) :=
  pf.foldl (fun acc prov =>
    match findMgr mgrs prov with
    | some m => if m.available then acc ++ [(prov, none)] else acc
    | none => acc) []

/-- The default-provider computation of `ModuleManager.resolve_packages`
(`src/manager.py` lines 77-80): `'nixpkgs'`, unless it is absent from a
non-empty registry, in which case the first registered provider's name. -/
def defaultProviderName (mgrs : List ProviderM) : String :=
  if (findMgr mgrs "nixpkgs").isNone then
    match mgrs with
    | [] => "nixpkgs"
    | m :: _ => m.name
  else "nixpkgs"

/-- `ModuleManager.resolve_packages(args)` (`src/manager.py` lines 68-98):
group tokens by provider, sending unqualified tokens to the default
provider.  (No caller in the repository invokes it; the command layer parses
tokens itself.) -/
def resolvePackages (mgrs : List ProviderM) (args : List String) :
    List (String × List String) :=
  args.foldl (fun acc arg =>
    match splitHash arg with
    | some (provider, pkg) => dictExtend acc provider (parseItems pkg)
    | none => dictExtend acc (defaultProviderName mgrs) (parseItems arg)) []

/-- One line of the output parser of `HomebrewProvider.search`
(`src/modules/homebrew/provider.py` lines 118-149): section headers switch
the current type, a `"name: description"` line (split on the first `": "`)
or a bare name becomes a result dict with `provider` set to `"homebrew"` by
the adapter itself. -/
def brewLinePkg (line curType : String) : Pkg :=
  match splitFirstStr ": " line with
  | some (a, b) =>
    { name := some a, id := some a, description := some b,
      version := some "unknown", provider := some "homebrew",
      ptype := some curType }
  | none =>
    { name := some line, id := some line,
      description := some "No description", version := some "unknown",
      provider := some "homebrew", ptype := some curType }

/-- The line dispatch of the same parser: blank lines are skipped, section
headers switch the current type, any other (stripped) line becomes a result
dict. -/
def brewSearchStep (acc : List Pkg × String) (rawLine : String) :
    List Pkg × String :=
  if (pyStrip rawLine).isEmpty then acc
  else if strStarts "==> Formulae" (pyStrip rawLine) then (acc.1, "formula")
  else if strStarts "==> Casks" (pyStrip rawLine) then (acc.1, "cask")
  else (acc.1 ++ [brewLinePkg (pyStrip rawLine) acc.2], acc.2)

/-- The result-construction part of `HomebrewProvider.search` applied to the
captured stdout of `brew search --desc`. -/
def homebrewSearchParse (stdout : String) : List Pkg :=
  ((pySplit (Char.ofNat 10) (pyStrip stdout)).foldl brewSearchStep
    ([], "formula")).1

/-- The version scanner of `NixProvider.list_packages` (`src/modules/nixpkgs/
provider.py` lines 127-131 and 156-159): walk the characters of
`name[-version...]` left to right and return the suffix starting right after
the first `'-'` that is immediately followed by a digit. -/
def scanVersion : List Char → Option (List Char)
  | [] => none
  | a :: rest =>
    match rest with
    | [] => none
    | b :: _ => if a = '-' ∧ b.isDigit then some rest else scanVersion rest

/-- Version extraction from one reference candidate inside
`_resolve_version_fallback` (`src/modules/nixpkgs/provider.py` lines
112-138): split on `/`, require at least four components, take the fourth,
require it longer than the 33-character hash-plus-dash prefix, strip that
prefix and scan. -/
def candidateVersion (candidate : String) : String :=
  let parts := pySplit '/' candidate
  if parts.length < 4 then "unknown"
  else
    let filename := (parts.get? 3).getD ""
    if filename.length ≤ 33 then "unknown"
    else
      match scanVersion (filename.drop 33).toList with
      | some v => String.mk v
      | none => "unknown"

/-- The candidate loop of `_resolve_version_fallback`: return the first
candidate version found, else `"unknown"`. -/
def firstVersion : List String → String
  | [] => "unknown"
  | c :: rest =>
    let v := candidateVersion c
    if v = "unknown" then firstVersion rest else v

/-- `_resolve_version_fallback(store_path, pkg_name)` (`src/modules/nixpkgs/
provider.py` lines 82-142).  `refs` is the outcome of the external
`nix-store --query --references` call: `none` for a failing call, otherwise
its stdout lines.  Candidates are the lines containing `pkg_name`,
stripped. -/
def resolveVersionFallback (refs : Option (List String))
    (storePath pkgName : String) : String :=
  if storePath.isEmpty ∨ pkgName.isEmpty then "unknown"
  else
    match refs with
    | none => "unknown"
    | some lines =>
      firstVersion ((lines.filter (fun l => strIn pkgName l)).map pyStrip)

/-- `_extract_version(store_paths, pkg_name)` (`src/modules/nixpkgs/
provider.py` lines 144-167): try the first store path (which must look like
`/nix/store/<file>`), strip the 33-character hash-plus-dash prefix of the
file name and scan; on failure fall back to the reference query. -/
def extractVersion (refs : Option (List String)) (storePaths : List String)
    (pkgName : String) : String :=
  match storePaths with
  | [] => "unknown"
  | path :: _ =>
    let parts := pySplit '/' path
    let version :=
      if parts.length > 3 ∧ (parts.get? 1).getD "" = "nix" ∧
          (parts.get? 2).getD "" = "store" then
        match scanVersion (((parts.get? 3).getD "").drop 33).toList with
        | some v => String.mk v
        | none => "unknown"
      else "unknown"
    if version ≠ "unknown" then version
    else resolveVersionFallback refs path pkgName

/-- A fixture search result mirroring a nixpkgs hit for `vim`. -/
def vimPkg : Pkg :=
  { name := some "vim", id := some "nixpkgs#vim", version := some "9.1",
    description := some "The editor", provider := some "nixpkgs" }

/-- A fixture provider whose `search` always returns the `vim` hit. -/
def nixTest : ProviderM :=
  { name := "nixpkgs", available := true, search := fun _ => some [vimPkg],
    listPkgs := some [] }

/-- A fixture provider with no search results. -/
def flatTest : ProviderM :=
  { name := "flatpak", available := true, search := fun _ => some [],
    listPkgs := some [] }

/-- A scripted prompt that always answers `1`. -/
def scriptOne : Nat → String := fun _ => "1"

/-- Fixture installed entries for the remove flow. -/
def instVim : Pkg :=
  { name := some "vim", id := some "vim1", version := some "9.1" }

/-- A second fixture installed entry whose name also contains `vim`. -/
def instNeovim : Pkg :=
  { name := some "neovim", id := some "vim2", version := some "0.10" }

/-- A fixture provider for the remove flow listing the two `vim` entries. -/
def remTest : ProviderM :=
  { name := "nixpkgs", available := true, search := fun _ => some [],
    listPkgs := some [instVim, instNeovim] }

/-- A scripted prompt answering `a` then `Y` (uppercase). -/
def scriptAY : Nat → String := fun n => if n = 0 then "a" else "Y"

/-- A fixture provider whose search result carries a `provider` value
different from its own registered name. -/
def mislabelled : ProviderM :=
  { name := "nixpkgs", available := true,
    search := fun _ => some [{ name := some "vim", provider := some "flatpak" }],
    listPkgs := some [] }

/-- A fixture provider whose search result has an empty-string `id`. -/
def emptyIdTest : ProviderM :=
  { name := "flatpak", available := true,
    search := fun _ =>
      some [{ name := some "Vim", id := some "", provider := some "flatpak" }],
    listPkgs := some [] }

theorem searchAllStep_eq (q : String) (acc : List Pkg) (m : ProviderM) :
    searchAllStep q acc m =
      acc ++ (if m.available then (m.search q).getD [] else []) := by
  unfold searchAllStep
  cases hA : m.available
  · simp
  · simp only [if_true]
    cases hS : m.search q with
    | none => simp
    | some rs => cases rs <;> simp

theorem foldl_searchAllStep (q : String) :
    ∀ (mgrs : List ProviderM) (acc : List Pkg),
      mgrs.foldl (searchAllStep q) acc =
        acc ++ (mgrs.map
          (fun m => if m.available then (m.search q).getD [] else [])).flatten
  | [], acc => by simp
  | m :: rest, acc => by
    rw [List.foldl_cons, foldl_searchAllStep q rest, searchAllStep_eq]
    simp

theorem dictGet_dictExtend {α : Type} :
    ∀ (d : List (String × List α)) (k : String) (vs : List α),
      dictGet (dictExtend d k vs) k = some ((dictGet d k).getD [] ++ vs)
  | [], k, vs => by simp [dictGet, dictExtend]
  | (k', vs') :: rest, k, vs => by
    by_cases h : k' = k
    · subst h; simp [dictGet, dictExtend]
    · simp [dictGet, dictExtend, h, dictGet_dictExtend rest k vs]

theorem matchesStep_mem (item : String) (acc : List Pkg) (m : ProviderM)
    (p : Pkg) (hp : p ∈ matchesStep item acc m) :
    p ∈ acc ∨ (m.available = true ∧ p.provider = some m.name) := by
  unfold matchesStep at hp
  cases hA : m.available
  · rw [hA] at hp; simp at hp; exact Or.inl hp
  · rw [hA] at hp; simp only [if_true] at hp
    cases hL : m.listPkgs with
    | none => rw [hL] at hp; exact Or.inl hp
    | some installed =>
      rw [hL] at hp
      rcases List.mem_append.mp hp with h | h
      · exact Or.inl h
      · rcases List.mem_map.mp h with ⟨q, _, rfl⟩
        exact Or.inr ⟨rfl, rfl⟩

theorem foldl_matchesStep_mem (item : String) :
    ∀ (mgrs : List ProviderM) (acc : List Pkg) (p : Pkg),
      p ∈ mgrs.foldl (matchesStep item) acc →
      p ∈ acc ∨ ∃ m, m ∈ mgrs ∧ m.available = true ∧ p.provider = some m.name
  | [], acc, p, hp => Or.inl hp
  | m :: rest, acc, p, hp => by
    rcases foldl_matchesStep_mem item rest (matchesStep item acc m) p hp with
      h | ⟨m', hm', hres⟩
    · rcases matchesStep_mem item acc m p h with h' | h'
      · exact Or.inl h'
      · exact Or.inr ⟨m, List.mem_cons_self .., h'⟩
    · exact Or.inr ⟨m', List.mem_cons_of_mem _ hm', hres⟩

theorem brewLinePkg_provider (line curType : String) :
    (brewLinePkg line curType).provider = some "homebrew" := by
  unfold brewLinePkg
  cases h : splitFirstStr ": " line with
  | none => rfl
  | some ab => rcases ab with ⟨a, b⟩; rfl

theorem brewSearchStep_provider (acc : List Pkg × String) (line : String)
    (p : Pkg) (hp : p ∈ (brewSearchStep acc line).1) :
    p ∈ acc.1 ∨ p.provider = some "homebrew" := by
  unfold brewSearchStep at hp
  split at hp
  · exact Or.inl hp
  · split at hp
    · exact Or.inl hp
    · split at hp
      · exact Or.inl hp
      · rcases List.mem_append.mp hp with h | h
        · exact Or.inl h
        · rcases List.mem_singleton.mp h with rfl
          exact Or.inr (brewLinePkg_provider _ _)

theorem foldl_brewSearchStep_provider :
    ∀ (lines : List String) (acc : List Pkg × String) (p : Pkg),
      p ∈ (lines.foldl brewSearchStep acc).1 →
      p ∈ acc.1 ∨ p.provider = some "homebrew"
  | [], acc, p, hp => Or.inl hp
  | line :: rest, acc, p, hp => by
    rcases foldl_brewSearchStep_provider rest (brewSearchStep acc line) p hp with
      h | h
    · exact brewSearchStep_provider acc line p h
    · exact Or.inr h

theorem dispatchStep_mem (mgrs : List ProviderM)
    (acc : List (String × List (Option String)))
    (h g : String × List (Option String))
    (hg : g ∈ dispatchStep mgrs acc h) :
    g ∈ acc ∨ ∃ m, findMgr mgrs g.1 = some m ∧ m.available = true := by
  unfold dispatchStep at hg
  cases hf : findMgr mgrs h.1 with
  | none => rw [hf] at hg; exact Or.inl hg
  | some m =>
    rw [hf] at hg
    simp only [] at hg
    cases hA : m.available
    · rw [hA] at hg
      simp at hg
      exact Or.inl hg
    · rw [hA] at hg
      simp at hg
      rcases hg with h'' | h''
      · exact Or.inl h''
      · subst h''
        exact Or.inr ⟨m, hf, hA⟩

theorem dispatchInstall_mem :
    ∀ (groups : List (String × List (Option String))) (mgrs : List ProviderM)
      (acc : List (String × List (Option String)))
      (g : String × List (Option String)),
      g ∈ groups.foldl (dispatchStep mgrs) acc →
      g ∈ acc ∨ ∃ m, findMgr mgrs g.1 = some m ∧ m.available = true
  | [], _, acc, g, hg => Or.inl hg
  | h :: rest, mgrs, acc, g, hg => by
    rcases dispatchInstall_mem rest mgrs _ g hg with h' | h'
    · exact dispatchStep_mem mgrs acc h g h'
    · exact Or.inr h'

/-- Claim C1, counterexample: in one `add` command the interactive flow can
schedule the same identifier twice under the same provider — two ambiguous
tokens `vim`, each answered with `1` against the same single search hit,
yield the group `nixpkgs -> [nixpkgs#vim, nixpkgs#vim]`, whose identifier
list is not duplicate-free.  The add flow performs no check against the
already scheduled identifiers. -/
theorem add_flow_schedules_duplicate :
    cmdAdd [nixTest] scriptOne ["vim", "vim"] =
      Except.ok { scheduled := [("nixpkgs", [some "nixpkgs#vim", some "nixpkgs#vim"])],
                  searchCalls := 2, prompts := 2, cursor := 2 } ∧
    ¬ List.Nodup [some "nixpkgs#vim", some "nixpkgs#vim"] :=
  ⟨by rfl, by decide⟩

/-- Claim C1, amended: only the remove flow checks candidates against the
identifiers already scheduled: every candidate surviving `filterScheduled`
comes from the collected matches and its identifier
(`m.get('id') or m.get('name')`) is not already in the scheduled list of its
provider.  The add flow performs no such check. -/
theorem remove_filter_excludes_scheduled :
    ∀ (sched : List (String × List (Option String))) (ms fs : List Pkg),
      filterScheduled sched ms = Except.ok fs →
      ∀ p ∈ fs, p ∈ ms ∧
        pyOr p.id p.name ∉ (dictGet sched (p.provider.getD "")).getD [] := by
  intro sched ms
  induction ms with
  | nil =>
    intro fs h p hp
    unfold filterScheduled at h
    cases h
    simp at hp
  | cons m rest ih =>
    intro fs h p hp
    unfold filterScheduled at h
    cases hprov : m.provider with
    | none => rw [hprov] at h; cases h
    | some prov =>
      rw [hprov] at h
      cases hrec : filterScheduled sched rest with
      | error e => rw [hrec] at h; cases h
      | ok rest' =>
        rw [hrec] at h
        simp only [] at h
        by_cases hmem : pyOr m.id m.name ∈ (dictGet sched prov).getD []
        · rw [if_pos hmem] at h
          injection h with h2
          subst h2
          rcases ih _ hrec p hp with ⟨h1, h2⟩
          exact ⟨List.mem_cons_of_mem _ h1, h2⟩
        · rw [if_neg hmem] at h
          injection h with h2
          subst h2
          rcases List.mem_cons.mp hp with rfl | hp'
          · exact ⟨List.mem_cons_self .., by simpa [hprov] using hmem⟩
          · rcases ih _ hrec p hp' with ⟨h1, h2⟩
            exact ⟨List.mem_cons_of_mem _ h1, h2⟩

/-- Witness for the amended C1 theorem at a concrete scheduled dict and
candidate list: the surviving candidate's identifier is not among the
already scheduled ones. -/
theorem remove_filter_excludes_scheduled_witness :
    { instNeovim with provider := some "nixpkgs" } ∈
        [{ instVim with provider := some "nixpkgs" },
         { instNeovim with provider := some "nixpkgs" }] ∧
      pyOr ({ instNeovim with provider := some "nixpkgs" } : Pkg).id
          ({ instNeovim with provider := some "nixpkgs" } : Pkg).name ∉
        (dictGet [("nixpkgs", [some "vim1"])]
          (({ instNeovim with provider := some "nixpkgs" } : Pkg).provider.getD "")).getD [] :=
  remove_filter_excludes_scheduled [("nixpkgs", [some "vim1"])]
    [{ instVim with provider := some "nixpkgs" },
     { instNeovim with provider := some "nixpkgs" }]
    [{ instNeovim with provider := some "nixpkgs" }]
    (by rfl) _ (by simp)

/-- Claim C2: a token with an explicit provider prefix `P#...` extends
provider `P`'s group with the comma-separated items (trimmed, empties
dropped) in order, in both the add and the remove flow, with the search-call
and prompt counters untouched; the group under `P` afterwards is the old
group plus the items. -/
theorem explicit_prefix_verbatim :
    ∀ (mgrs : List ProviderM) (script : Nat → String) (stA : AddState)
      (stR : RState) (arg P rest : String),
      splitHash arg = some (P, rest) →
      processAddArg mgrs script stA arg =
        Except.ok { stA with
          scheduled := dictExtend stA.scheduled P ((parseItems rest).map some) } ∧
      processRemoveArg mgrs script stR arg =
        Except.ok { stR with
          scheduled := dictExtend stR.scheduled P ((parseItems rest).map some) } ∧
      dictGet (dictExtend stA.scheduled P ((parseItems rest).map some)) P =
        some ((dictGet stA.scheduled P).getD [] ++ (parseItems rest).map some) := by
  intro mgrs script stA stR arg P rest h
  refine ⟨?_, ?_, dictGet_dictExtend _ _ _⟩
  · unfold processAddArg
    rw [h]
  · unfold processRemoveArg
    rw [h]

/-- Witness for C2 on the token `flatpak#Spotify, OBS Studio,`. -/
theorem explicit_prefix_verbatim_witness :
    processAddArg [nixTest] scriptOne {} "flatpak#Spotify, OBS Studio," =
      Except.ok { ({} : AddState) with
        scheduled := dictExtend ({} : AddState).scheduled "flatpak"
          ((parseItems "Spotify, OBS Studio,").map some) } ∧
    processRemoveArg [nixTest] scriptOne {} "flatpak#Spotify, OBS Studio," =
      Except.ok { ({} : RState) with
        scheduled := dictExtend ({} : RState).scheduled "flatpak"
          ((parseItems "Spotify, OBS Studio,").map some) } ∧
    dictGet (dictExtend ({} : AddState).scheduled "flatpak"
        ((parseItems "Spotify, OBS Studio,").map some)) "flatpak" =
      some ((dictGet ({} : AddState).scheduled "flatpak").getD [] ++
        (parseItems "Spotify, OBS Studio,").map some) :=
  explicit_prefix_verbatim [nixTest] scriptOne {} {} "flatpak#Spotify, OBS Studio,"
    "flatpak" "Spotify, OBS Studio," (by rfl)

/-- Claim C3: `search_all` is total (a raising provider is modelled and
absorbed, never propagated) and returns exactly the concatenation, in
registration order, of each available provider's own result list, a raising
provider contributing nothing; each provider's internal order is kept and no
cross-provider re-ranking happens. -/
theorem searchAll_aggregates :
    ∀ (mgrs : List ProviderM) (q : String),
      searchAll mgrs q =
        (mgrs.map
          (fun m => if m.available then (m.search q).getD [] else [])).flatten :=
  fun mgrs q => by simpa [searchAll] using foldl_searchAllStep q mgrs []

/-- Claim C4, counterexample: with a non-empty registry containing only
`flatpak` (so the designated default `nixpkgs` is absent), upgrade parsing
assigns the unqualified token `git` to the literal name `nixpkgs`, not to the
first registered provider — `cmd_upgrade` hard-codes the default and never
calls `resolve_packages`. -/
theorem upgrade_default_no_fallback :
    cmdUpgradeParse [flatTest] ["git"] = ([], [("nixpkgs", ["git"])]) ∧
    findMgr [flatTest] "nixpkgs" = none ∧
    flatTest.name = "flatpak" :=
  ⟨by rfl, by rfl, rfl⟩

/-- Claim C4, amended: the described fallback exists only in
`ModuleManager.resolve_packages` — there an unqualified token goes to the
first registered provider when `nixpkgs` is absent from a non-empty
registry — but the upgrade flow parses tokens itself and always assigns an
unqualified non-provider token to the literal name `nixpkgs`. -/
theorem resolve_fallback_vs_upgrade_hardcode :
    ∀ (m : ProviderM) (mgrs : List ProviderM) (arg : String),
      findMgr (m :: mgrs) "nixpkgs" = none →
      splitHash arg = none →
      resolvePackages (m :: mgrs) [arg] = [(m.name, parseItems arg)] ∧
      (findMgr (m :: mgrs) arg = none →
        cmdUpgradeParse (m :: mgrs) [arg] = ([], [("nixpkgs", [arg])])) := by
  intro m mgrs arg hno hsplit
  constructor
  · unfold resolvePackages defaultProviderName
    rw [hno]
    simp only [List.foldl_cons, List.foldl_nil]
    rw [hsplit]
    simp [dictExtend]
  · intro hnis
    unfold cmdUpgradeParse upgStep
    simp only [List.foldl_cons, List.foldl_nil]
    rw [hnis, hsplit]
    simp [dictExtend]

/-- Witness for the amended C4 theorem on registry `[flatpak]` and token
`git`. -/
theorem resolve_fallback_vs_upgrade_hardcode_witness :
    resolvePackages [flatTest] ["git"] = [(flatTest.name, parseItems "git")] ∧
    (findMgr [flatTest] "git" = none →
      cmdUpgradeParse [flatTest] ["git"] = ([], [("nixpkgs", ["git"])])) :=
  resolve_fallback_vs_upgrade_hardcode flatTest [] "git" (by rfl) (by rfl)

/-- Claim C6: in upgrade parsing a token equal to a registered provider name
is put on the full-provider list and the package map is untouched — the
registered-name check precedes both the `#` split and the default
assignment, so this holds whatever the token's shape — and executing the
full-provider list invokes that provider's `upgrade` with no package list
(`none`). -/
theorem upgrade_provider_token_full_upgrade :
    ∀ (mgrs : List ProviderM)
      (acc : List String × List (String × List String)) (arg : String)
      (m : ProviderM),
      findMgr mgrs arg = some m →
      upgStep mgrs acc arg = (acc.1 ++ [arg], acc.2) ∧
      (m.available = true → upgradeFullExec mgrs [arg] = [(arg, none)]) := by
  intro mgrs acc arg m h
  constructor
  · unfold upgStep
    rw [h]
    rfl
  · intro hav
    unfold upgradeFullExec
    simp [h, hav]

/-- Witness for C6: the token `flatpak` with `flatpak` registered. -/
theorem upgrade_provider_token_full_upgrade_witness :
    upgStep [flatTest] ([], []) "flatpak" = (([] : List String) ++ ["flatpak"], []) ∧
    (flatTest.available = true →
      upgradeFullExec [flatTest] ["flatpak"] = [("flatpak", none)]) :=
  upgrade_provider_token_full_upgrade [flatTest] ([], []) "flatpak" flatTest (by rfl)

/-- Claim C5, counterexample: the bulk-removal confirmation is *not* only
accepted for the exact lowercase string `y` — the answer `Y` (uppercase,
hence not equal to `y`) also schedules every shown candidate, because the
code compares `confirm.lower()` with `'y'`. -/
theorem remove_all_uppercase_confirms :
    cmdRemove [remTest] scriptAY ["vim"] =
      Except.ok { scheduled := [("nixpkgs", [some "vim1", some "vim2"])],
                  listCalls := 1, prompts := 2, cursor := 2 } ∧
    scriptAY 1 = "Y" ∧ "Y" ≠ "y" :=
  ⟨by rfl, rfl, by decide⟩

/-- Claim C5, amended: after answering `a`, all shown candidates are
scheduled if and only if the second answer *lowercases* to `y` (so exactly
`y` or `Y`); any other answer leaves the scheduled groups unchanged, and
either way exactly the two prompts are consumed — the loop never falls
through to the per-item selection prompt. -/
theorem remove_all_confirm_lowercase_y :
    ∀ (mgrs : List ProviderM) (script : Nat → String) (st : RState)
      (item : String) (filtered : List Pkg),
      pyLower (script st.cursor) = "a" →
      matchesFor mgrs item ≠ [] →
      filterScheduled st.scheduled (matchesFor mgrs item) =
        Except.ok filtered →
      filtered ≠ [] →
      processRemoveItem mgrs script st item =
        (if pyLower (script (st.cursor + 1)) = "y" then
          match filtered.foldlM scheduleCandidate st.scheduled with
          | Except.ok s =>
            Except.ok
              { scheduled := s,
                listCalls := st.listCalls + (mgrs.filter (·.available)).length,
                prompts := st.prompts + 2, cursor := st.cursor + 2 }
          | Except.error e => Except.error e
        else
          Except.ok
            { scheduled := st.scheduled,
              listCalls := st.listCalls + (mgrs.filter (·.available)).length,
              prompts := st.prompts + 2, cursor := st.cursor + 2 }) := by
  intro mgrs script st item filtered hA hm hf hne
  have hm' : (matchesFor mgrs item).isEmpty = false := by
    cases h : matchesFor mgrs item with
    | nil => exact absurd h hm
    | cons a l => rfl
  have hne' : filtered.isEmpty = false := by
    cases h : filtered with
    | nil => exact absurd h hne
    | cons a l => rfl
  unfold processRemoveItem
  simp only [hm', hf, hne', hA, Bool.false_eq_true, if_false]
  by_cases hy : pyLower (script (st.cursor + 1)) = "y"
  · simp only [hy, if_true, if_pos]
    rfl
  · simp only [hy, if_false, if_neg]
    rfl

/-- Witness for the amended C5 theorem: the concrete run of the
counterexample, with the two shown candidates and the scripted answers `a`
then `Y`. -/
theorem remove_all_confirm_lowercase_y_witness :
    processRemoveItem [remTest] scriptAY {} "vim" =
      (if pyLower (scriptAY (({} : RState).cursor + 1)) = "y" then
        match ([{ instVim with provider := some "nixpkgs" },
                { instNeovim with provider := some "nixpkgs" }] : List Pkg).foldlM
            scheduleCandidate ({} : RState).scheduled with
        | Except.ok s =>
          Except.ok
            { scheduled := s,
              listCalls := ({} : RState).listCalls +
                (([remTest].filter (·.available)).length),
              prompts := ({} : RState).prompts + 2,
              cursor := ({} : RState).cursor + 2 }
        | Except.error e => Except.error e
      else
        Except.ok
          { scheduled := ({} : RState).scheduled,
            listCalls := ({} : RState).listCalls +
              (([remTest].filter (·.available)).length),
            prompts := ({} : RState).prompts + 2,
            cursor := ({} : RState).cursor + 2 }) :=
  remove_all_confirm_lowercase_y [remTest] scriptAY {} "vim"
    [{ instVim with provider := some "nixpkgs" },
     { instNeovim with provider := some "nixpkgs" }]
    (by rfl) (by decide) (by rfl) (by decide)

theorem scanVersion_cons₂ (a b : Char) (l : List Char) :
    scanVersion (a :: b :: l) =
      if a = '-' ∧ b.isDigit then some (b :: l) else scanVersion (b :: l) :=
  rfl

set_option maxRecDepth 8192

/-- Claim C7: version extraction on the canonical path with a 32-character
hash yields `60.1` whatever the external reference set is; the scanner
returns the suffix at the *leftmost* separator-followed-by-digit position;
and a name segment with no such position yields `unknown` after the
reference fallback (whether the reference query fails or returns nothing
usable), the function being total, hence never raising. -/
theorem version_heuristic_leftmost :
    (∀ (refs : Option (List String)) (pkg : String),
      extractVersion refs
        ["/nix/store/0123456789abcdefghijklmnopqrstuv-bottles-unwrapped-60.1"]
        pkg = "60.1") ∧
    (∀ (pre : List Char) (c : Char) (rest : List Char),
      scanVersion (pre ++ ['-']) = none → c.isDigit = true →
      scanVersion (pre ++ '-' :: c :: rest) = some (c :: rest)) ∧
    (∀ refs : Option (List String), refs = none ∨ refs = some [] →
      extractVersion refs
        ["/nix/store/0123456789abcdefghijklmnopqrstuv-bottles"] "bottles" =
        "unknown") := by
  refine ⟨fun refs pkg => rfl, ?_, ?_⟩
  · intro pre
    induction pre with
    | nil =>
      intro c rest h hc
      rw [List.nil_append, scanVersion_cons₂, if_pos ⟨rfl, hc⟩]
    | cons p tail ih =>
      intro c rest h hc
      cases tail with
      | nil =>
        have hd : ('-').isDigit = false := by decide
        simp only [List.cons_append, List.nil_append] at h ⊢
        rw [scanVersion_cons₂]
        rw [if_neg (by simp [hd])]
        rw [scanVersion_cons₂, if_pos ⟨rfl, hc⟩]
      | cons q tail' =>
        simp only [List.cons_append] at h ⊢
        rw [scanVersion_cons₂] at h ⊢
        by_cases hpq : p = '-' ∧ q.isDigit = true
        · rw [if_pos hpq] at h
          cases h
        · rw [if_neg hpq] at h ⊢
          exact ih c rest h hc
  · rintro refs (rfl | rfl) <;> rfl

/-- Witness for C7's leftmost-scan conjunct at a concrete name segment:
`ab-1c` scans to `1c`. -/
theorem version_heuristic_leftmost_witness :
    scanVersion (['a', 'b'] ++ '-' :: '1' :: ['c']) = some ('1' :: ['c']) :=
  version_heuristic_leftmost.2.1 ['a', 'b'] '1' ['c'] (by decide) (by decide)

/-- Claim C8: a token beginning with `#` has an empty provider name; its
items are grouped under the key `""`, which matches no registered provider
(all of which have non-empty names), so the dispatch loop never installs
that group — the items are never handed to any registered or default
provider. -/
theorem empty_provider_prefix_dropped :
    ∀ (mgrs : List ProviderM) (script : Nat → String) (st : AddState)
      (arg rest : String),
      splitHash arg = some ("", rest) →
      (∀ m ∈ mgrs, m.name ≠ "") →
      processAddArg mgrs script st arg =
        Except.ok { st with
          scheduled := dictExtend st.scheduled "" ((parseItems rest).map some) } ∧
      findMgr mgrs "" = none ∧
      ∀ g ∈ dispatchInstall mgrs
          (dictExtend st.scheduled "" ((parseItems rest).map some)),
        (findMgr mgrs g.1).isSome ∧ g.1 ≠ "" := by
  intro mgrs script st arg rest hsplit hnames
  have hfind : findMgr mgrs "" = none := by
    apply List.find?_eq_none.mpr
    intro m hm
    simpa using hnames m hm
  refine ⟨?_, hfind, ?_⟩
  · unfold processAddArg
    rw [hsplit]
  · intro g hg
    rcases dispatchInstall_mem _ mgrs [] g hg with h | ⟨m, hm, _⟩
    · simp at h
    · refine ⟨by rw [hm]; rfl, ?_⟩
      intro hgeq
      rw [hgeq, hfind] at hm
      cases hm

/-- Witness for C8 on the token `#vim,git` against the registry
`[nixpkgs, flatpak]`. -/
theorem empty_provider_prefix_dropped_witness :
    processAddArg [nixTest, flatTest] scriptOne {} "#vim,git" =
      Except.ok { ({} : AddState) with
        scheduled := dictExtend ({} : AddState).scheduled ""
          ((parseItems "vim,git").map some) } ∧
    findMgr [nixTest, flatTest] "" = none ∧
    ∀ g ∈ dispatchInstall [nixTest, flatTest]
        (dictExtend ({} : AddState).scheduled "" ((parseItems "vim,git").map some)),
      (findMgr [nixTest, flatTest] g.1).isSome ∧ g.1 ≠ "" :=
  empty_provider_prefix_dropped [nixTest, flatTest] scriptOne {} "#vim,git"
    "vim,git" (by rfl)
    (by
      intro m hm
      simp only [List.mem_cons, List.mem_singleton] at hm
      rcases hm with rfl | rfl | h
      · decide
      · decide
      · simp at h)

/-- Claim C9, counterexample: `search_all` does not populate the `provider`
field — it passes each adapter's results through untouched.  A registered
provider named `nixpkgs` whose search result carries `provider = "flatpak"`
yields an aggregate entry whose `provider` field differs from the producing
provider's name, which could not happen if the aggregating caller set the
field. -/
theorem search_aggregate_provider_from_adapter :
    (searchAll [mislabelled] "vim").map (fun p => p.provider) =
      [some "flatpak"] ∧
    mislabelled.name = "nixpkgs" ∧ some mislabelled.name ≠ some "flatpak" :=
  ⟨by rfl, rfl, by decide⟩

/-- Claim C9, amended: in the search aggregation the `provider` field comes
from the adapter — `search_all` returns the adapters' result lists
unchanged, and the homebrew adapter (like the others) stamps its own name —
while only the remove-flow installed-listing aggregation has the caller set
`provider` to the producing provider's name. -/
theorem provider_field_population :
    (∀ (mgrs : List ProviderM) (q : String),
      searchAll mgrs q =
        (mgrs.map
          (fun m => if m.available then (m.search q).getD [] else [])).flatten) ∧
    (∀ (mgrs : List ProviderM) (item : String) (p : Pkg),
      p ∈ matchesFor mgrs item →
      ∃ m, m ∈ mgrs ∧ m.available = true ∧ p.provider = some m.name) ∧
    (∀ (out : String) (p : Pkg),
      p ∈ homebrewSearchParse out → p.provider = some "homebrew") := by
  refine ⟨fun mgrs q => by simpa [searchAll] using foldl_searchAllStep q mgrs [],
    ?_, ?_⟩
  · intro mgrs item p hp
    rcases foldl_matchesStep_mem item mgrs [] p hp with h | h
    · simp at h
    · exact h
  · intro out p hp
    rcases foldl_brewSearchStep_provider _ ([], "formula") p hp with h | h
    · simp at h
    · exact h

/-- Witness for the amended C9 theorem: a concrete installed match in the
remove flow carries the producing provider's name, stamped by the caller. -/
theorem provider_field_population_witness :
    ∃ m, m ∈ [remTest] ∧ m.available = true ∧
      ({ instVim with provider := some "nixpkgs" } : Pkg).provider =
        some m.name :=
  provider_field_population.2.1 [remTest] "vim"
    { instVim with provider := some "nixpkgs" } (by decide)

/-- Claim C10: the scheduled identifier is `selected.get('id') or
selected.get('name')` — the `id` field is used only when present and
non-empty, an empty-string `id` falls back to the `name` field — and this is
the identifier both flows append, as the concrete add-flow run with an
empty-string `id` shows. -/
theorem scheduled_identifier_truthy_id :
    (∀ (s : String) (b : Option String), s ≠ "" → pyOr (some s) b = some s) ∧
    (∀ b : Option String, pyOr (some "") b = b) ∧
    (∀ (sched : List (String × List (Option String))) (p : Pkg)
      (prov nm : String),
      p.provider = some prov → p.name = some nm →
      scheduleCandidate sched p =
        Except.ok (dictExtend sched prov [pyOr p.id p.name])) ∧
    processAddItem [emptyIdTest] scriptOne {} "vim" =
      Except.ok { scheduled := [("flatpak", [some "Vim"])],
                  searchCalls := 1, prompts := 1, cursor := 1 } := by
  refine ⟨?_, fun b => rfl, ?_, by rfl⟩
  · intro s b hs
    simp [pyOr, hs]
  · intro sched p prov nm h1 h2
    unfold scheduleCandidate
    rw [h1, h2]

/-- Witness for C10: a non-empty `id` wins over the name. -/
theorem scheduled_identifier_truthy_id_witness :
    pyOr (some "org.vim.Vim") (some "Vim") = some "org.vim.Vim" :=
  scheduled_identifier_truthy_id.1 "org.vim.Vim" (some "Vim") (by decide)

end Mixtura
